import Mathlib

/-!
Verification development for the fio parameter-sweep tool
(`script.py` / `test_iops.py`).

The Python code is shallowly embedded:
* parsed JSON documents become the inductive type `JVal`
  (numbers are modelled exactly as rationals);
* Python dictionary/sequence operations that may raise become
  `Except String _` computations, where `.error` models an uncaught
  Python exception;
* the external `fio` process and the wall clock are oracles passed in
  as explicit parameters.
-/

/-- A parsed JSON document, as produced by `json.load`.  `obj` keeps the
key/value pairs in order; lookup takes the last binding for a duplicated
key, matching `json.load`'s dictionary semantics. -/
inductive JVal where
  | null
  | bool (b : Bool)
  | num (q : ℚ)
  | str (s : String)
  | arr (xs : List JVal)
  | obj (fields : List (String × JVal))

/-- Python truthiness test (`not results`, `if not jobs`) on a JSON value:
`None`, `False`, `0`, `""`, `[]` and `{}` are falsy. -/
def JVal.falsy : JVal → Bool
  | .null => true
  | .bool b => !b
  | .num q => q == 0
  | .str s => s.isEmpty
  | .arr xs => xs.isEmpty
  | .obj fs => fs.isEmpty

/-- Dictionary lookup over the ordered pair list of an `obj`; a later
binding of the same key shadows an earlier one, as in a Python dict
built by `json.load`. -/
def jlookup (fs : List (String × JVal)) (k : String) : Option JVal :=
  fs.foldl (fun acc p => if p.1 = k then some p.2 else acc) none

/-- Python `v.get(key, default)`.  Only dictionaries have `.get`; calling
it on any other value raises `AttributeError`. -/
def JVal.get (v : JVal) (key : String) (default : JVal) : Except String JVal :=
  match v with
  | .obj fs => .ok ((jlookup fs key).getD default)
  | _ => .error "AttributeError"

/-- Python `v[0]`: first element of a list, first character of a string;
a JSON-parsed dict has only string keys, so `v[0]` raises `KeyError`;
on any other value it raises `TypeError`. -/
def JVal.index0 : JVal → Except String JVal
  | .arr (x :: _) => .ok x
  | .arr [] => .error "IndexError"
  | .str s => if s.isEmpty then .error "IndexError" else .ok (.str (String.singleton s.front))
  | .obj _ => .error "KeyError"
  | _ => .error "TypeError"

/-- Python `+` on the values that can reach `read_iops + write_iops`:
numbers add (`bool` counts as an integer), strings and lists
concatenate, every other combination raises `TypeError`. -/
def pyAdd : JVal → JVal → Except String JVal
  | .num a, .num b => .ok (.num (a + b))
  | .bool a, .num b => .ok (.num ((if a then 1 else 0) + b))
  | .num a, .bool b => .ok (.num (a + (if b then 1 else 0)))
  | .bool a, .bool b => .ok (.num ((if a then 1 else 0) + (if b then 1 else 0)))
  | .str a, .str b => .ok (.str (a ++ b))
  | .arr a, .arr b => .ok (.arr (a ++ b))
  | _, _ => .error "TypeError"

/-- `get_iops_from_results` (test_iops.py lines 41-57).  `none` models the
`None` returned by a failed `run_fio_test`; the result is the value the
function returns, or `.error` when a step raises. -/
def get_iops_from_results (results : Option JVal) : Except String JVal :=
  match results with
  | none => .ok (.num 0)
  | some r =>
    if r.falsy then .ok (.num 0)
    else
      match r.get "jobs" (.arr []) with
      | .error e => .error e
      | .ok jobs =>
        if jobs.falsy then .ok (.num 0)
        else
          match jobs.index0 with
          | .error e => .error e
          | .ok job =>
            match job.get "read" (.obj []) with
            | .error e => .error e
            | .ok readStats =>
              match readStats.get "iops" (.num 0) with
              | .error e => .error e
              | .ok read_iops =>
                match job.get "write" (.obj []) with
                | .error e => .error e
                | .ok writeStats =>
                  match writeStats.get "iops" (.num 0) with
                  | .error e => .error e
                  | .ok write_iops => pyAdd read_iops write_iops

/-- Modelled from the spec's words (§4.3), for comparison with the code's
`get_iops_from_results`: on `Failure` the metric is 0; on `Success` the
first job's read and write operations-per-second figures, each
defaulting to 0 when absent, are summed.  `none` means the spec's
description does not determine a value (malformed document). -/
def specFigure (gs : List (String × JVal)) (k : String) : Option ℚ :=
  match jlookup gs k with
  | none => some 0
  | some (.obj hs) =>
    match jlookup hs "iops" with
    | none => some 0
    | some (.num q) => some q
    | some _ => none
  | some _ => none

/-- Modelled from the spec's words (§4.3): the metric the Metric
Extractor is described to return, when the description applies. -/
def specExtract : Option JVal → Option ℚ
  | none => some 0
  | some (.obj fs) =>
    match jlookup fs "jobs" with
    | none => some 0
    | some (.arr []) => some 0
    | some (.arr (job :: _)) =>
      match job with
      | .obj gs =>
        match specFigure gs "read", specFigure gs "write" with
        | some r, some w => some (r + w)
        | _, _ => none
      | _ => none
    | some _ => none
  | some _ => none

/-- Documents on which `get_iops_from_results` provably neither raises
nor produces a negative or non-numeric value: the read/write fields of
the first job, when present, are objects whose `iops` fields, when
present, are non-negative numbers. -/
def iopsFieldSafe (gs : List (String × JVal)) (k : String) : Bool :=
  match jlookup gs k with
  | none => true
  | some (.obj hs) =>
    match jlookup hs "iops" with
    | none => true
    | some (.num q) => decide (0 ≤ q)
    | some _ => false
  | some _ => false

/-- Shape check under which the Metric Extractor is safe (see
`iopsFieldSafe`); every `Failure` and every falsy or jobs-less document
is safe, and a non-empty jobs list must start with a well-shaped job. -/
def extractSafe : Option JVal → Bool
  | none => true
  | some r =>
    if r.falsy then true
    else
      match r with
      | .obj fs =>
        match jlookup fs "jobs" with
        | none => true
        | some jobs =>
          if jobs.falsy then true
          else
            match jobs with
            | .arr (job :: _) =>
              match job with
              | .obj gs => iopsFieldSafe gs "read" && iopsFieldSafe gs "write"
              | _ => false
            | _ => false
      | _ => false

/-- One concrete benchmark parameter combination (the tuple iterated in
`run_parameter_test`, test_iops.py line 104). -/
structure RunConfig where
  rw : String
  bs : String
  iodepth : Int
  numjobs : Int
  ioengine : String
deriving DecidableEq

/-- The `test_params` dictionary passed to `run_parameter_test`
(test_iops.py lines 83-87): each key may be absent, in which case the
code substitutes a one-element default list. -/
structure TestParams where
  rw : Option (List String)
  bs : Option (List String)
  iodepth : Option (List Int)
  numjobs : Option (List Int)
  ioengine : Option (List String)

/-- `itertools.product(rw_modes, block_sizes, io_depths, num_jobs,
io_engines)` (test_iops.py lines 98-99): nested-loop order, first
dimension varying slowest, last varying fastest. -/
def product5 (rs bss : List String) (ds ns : List Int) (es : List String) : List RunConfig :=
  rs.flatMap fun rw =>
    bss.flatMap fun bs =>
      ds.flatMap fun d =>
        ns.flatMap fun n =>
          es.map fun e => ⟨rw, bs, d, n, e⟩

/-- Outcome of the external `fio` process spawned by
`subprocess.run(cmd, check=True)` (script.py line 50). -/
inductive ProcOutcome where
  | exitCode (code : Nat)
  | oserror (msg : String)

/-- Environment of one `run_fio_test` call: what the spawned process
does, and what reading + JSON-parsing the output file yields. -/
structure FioEnv where
  proc : ProcOutcome
  readOutput : Except String JVal

/-- `run_fio_test` (script.py lines 49-60): `check=True` raises
`CalledProcessError` on a non-zero exit, which the `except` clause turns
into `(None, None)`; an OS-level spawn error or a failure while opening
or parsing the output file propagates as an uncaught exception. -/
def run_fio_test (output_file : String) (env : FioEnv) :
    Except String (Option JVal × Option String) :=
  match env.proc with
  | .oserror m => .error m
  | .exitCode 0 =>
    match env.readOutput with
    | .error m => .error m
    | .ok doc => .ok (some doc, some output_file)
  | .exitCode (_ + 1) => .ok (none, none)

/-- The best-result update (test_iops.py lines 143-152): state is
`(best_iops, best_params)`, where `none` models the initial empty
`best_params` dictionary and `some (cfg, q)` the dictionary holding
`cfg`'s five fields plus the `iops` key. -/
def update_best (best_iops : ℚ) (best_params : Option (RunConfig × ℚ))
    (cfg : RunConfig) (iops : ℚ) : ℚ × Option (RunConfig × ℚ) :=
  if best_iops < iops then (iops, some (cfg, iops)) else (best_iops, best_params)

/-- One persisted row of the result CSV (test_iops.py lines 130-140):
the config fields, the value written under `iops`, and the timestamp
string.  The `iops` value is kept as a `JVal` because the code writes
whatever `get_iops_from_results` returned. -/
structure ResultRow where
  config : RunConfig
  iops : JVal
  timestamp : String

/-- The loop body of `run_parameter_test` (test_iops.py lines 104-162),
threaded over the remaining combinations.  `adapter` models the
`run_fio_test` call, `ts` the `datetime.now()` timestamp oracle indexed
by `test_count`.  Returns the list of rows appended to the CSV together
with the final `(best_iops, best_params)` state; `.error` models an
uncaught exception aborting the sweep (the comparison
`iops > best_iops` raises `TypeError` when `iops` is not a number). -/
def sweepLoop (adapter : RunConfig → Except String (Option JVal × Option String))
    (ts : Nat → String) :
    List RunConfig → Nat → ℚ → Option (RunConfig × ℚ) →
      Except String (List ResultRow × ℚ × Option (RunConfig × ℚ))
  | [], _, best_iops, best_params => .ok ([], best_iops, best_params)
  | cfg :: rest, test_count, best_iops, best_params =>
    match adapter cfg with
    | .error e => .error e
    | .ok (results, _) =>
      match get_iops_from_results results with
      | .error e => .error e
      | .ok iopsVal =>
        match iopsVal with
        | .num q =>
          let row : ResultRow := ⟨cfg, .num q, ts test_count⟩
          let st := update_best best_iops best_params cfg q
          match sweepLoop adapter ts rest (test_count + 1) st.1 st.2 with
          | .error e => .error e
          | .ok (rows, fbi, fbp) => .ok (row :: rows, fbi, fbp)
        | _ => .error "TypeError"

/-- The enumerated combination list of `run_parameter_test`
(test_iops.py lines 83-99), with the `dict.get` defaults applied. -/
def combosOf (p : TestParams) : List RunConfig :=
  product5 (p.rw.getD ["randread"]) (p.bs.getD ["4k"]) (p.iodepth.getD [32])
    (p.numjobs.getD [4]) (p.ioengine.getD ["libaio"])

/-- The adapter used by the controller: each combination's
`run_fio_test` call, with `names cfg` the output-file path built from
the test name and `env cfg` that call's external environment. -/
def adapterOf (names : RunConfig → String) (env : RunConfig → FioEnv) :
    RunConfig → Except String (Option JVal × Option String) :=
  fun cfg => run_fio_test (names cfg) (env cfg)

/-- `run_parameter_test` (test_iops.py lines 59-164): writes the header,
iterates over all combinations, and returns `best_params`.  The first
component of the result is the list of data rows appended to the CSV
(the file state), the second the returned `best_params`. -/
def run_parameter_test (names : RunConfig → String) (env : RunConfig → FioEnv)
    (ts : Nat → String) (p : TestParams) :
    Except String (List ResultRow × Option (RunConfig × ℚ)) :=
  match sweepLoop (adapterOf names env) ts (combosOf p) 1 0 none with
  | .error e => .error e
  | .ok (rows, _, best_params) => .ok (rows, best_params)

/-- `best_params['iops']` as read by `main` (test_iops.py line 418): on
the empty sentinel dictionary this raises `KeyError`. -/
def best_params_iops : Option (RunConfig × ℚ) → Except String ℚ
  | none => .error "KeyError"
  | some (_, q) => .ok q

/-- The metric a combination contributes under a given adapter, when the
adapter call and the extraction succeed with a numeric value (the cases
the theorems below hypothesise); 0 otherwise. -/
def mval (adapter : RunConfig → Except String (Option JVal × Option String))
    (cfg : RunConfig) : ℚ :=
  match adapter cfg with
  | .ok (results, _) =>
    match get_iops_from_results results with
    | .ok (.num q) => q
    | _ => 0
  | _ => 0

/-- The rows `sweepLoop` appends on a successful pass, made explicit. -/
def rowsFor (adapter : RunConfig → Except String (Option JVal × Option String))
    (ts : Nat → String) (test_count : Nat) : List RunConfig → List ResultRow
  | [] => []
  | cfg :: rest =>
    ⟨cfg, .num (mval adapter cfg), ts test_count⟩ :: rowsFor adapter ts (test_count + 1) rest

/-- Success hypothesis for one combination: the `run_fio_test` call
returns (rather than raising), and the extraction yields a number. -/
def RunOk (adapter : RunConfig → Except String (Option JVal × Option String))
    (cfg : RunConfig) : Prop :=
  ∃ results path q, adapter cfg = .ok (results, path) ∧
    get_iops_from_results results = .ok (.num q)

/-! ### Metric Extractor lemmas -/

lemma jlookup_nil (k : String) : jlookup [] k = none := rfl

lemma get_obj (fs : List (String × JVal)) (k : String) (d : JVal) :
    (JVal.obj fs).get k d = .ok ((jlookup fs k).getD d) := rfl

lemma falsy_arr_cons (x : JVal) (xs : List JVal) :
    (JVal.arr (x :: xs)).falsy = false := rfl

lemma index0_cons (x : JVal) (xs : List JVal) :
    (JVal.arr (x :: xs)).index0 = .ok x := rfl

/-- An object with a successful key lookup is non-empty, hence truthy. -/
lemma falsy_obj_of_lookup {fs : List (String × JVal)} {k : String} {v : JVal}
    (h : jlookup fs k = some v) : (JVal.obj fs).falsy = false := by
  cases fs with
  | nil => simp [jlookup] at h
  | cons p l => rfl

/-- Evaluating the `job.get(field, {}).get('iops', 0)` chain on a field
whose spec-side figure is defined. -/
lemma figure_eval (gs : List (String × JVal)) (k : String) (r : ℚ)
    (h : specFigure gs k = some r) :
    ∃ stats, (JVal.obj gs).get k (.obj []) = .ok stats ∧
      stats.get "iops" (.num 0) = .ok (.num r) := by
  rcases hk : jlookup gs k with _ | (_ | b | q0 | s | xs | hs) <;>
    simp [specFigure, hk] at h
  · subst h
    exact ⟨.obj [], by simp [get_obj, hk], by simp [get_obj, jlookup_nil]⟩
  · rcases hi : jlookup hs "iops" with _ | (_ | b2 | q2 | s2 | xs2 | hs2) <;>
      simp [hi] at h
    · subst h
      exact ⟨.obj hs, by simp [get_obj, hk], by simp [get_obj, hi]⟩
    · subst h
      exact ⟨.obj hs, by simp [get_obj, hk], by simp [get_obj, hi]⟩

/-- The code's extractor agrees with the spec-side description wherever
the description determines a value. -/
lemma get_iops_spec (res : Option JVal) (q : ℚ) (h : specExtract res = some q) :
    get_iops_from_results res = .ok (.num q) := by
  rcases res with _ | (_ | b | q0 | s | xs | fs) <;> simp [specExtract] at h
  · subst h; rfl
  · rcases hj : jlookup fs "jobs" with _ | (_ | b2 | q2 | s2 | ys | gs2) <;>
      simp [hj] at h
    · -- `jobs` key absent: default `[]` is falsy, result 0
      subst h
      cases fs with
      | nil => rfl
      | cons p l =>
        simp [get_iops_from_results, JVal.falsy, get_obj, hj]
    · -- `jobs` is a list
      rcases ys with _ | ⟨job, rest⟩
      · -- empty list
        simp at h
        subst h
        simp [get_iops_from_results, falsy_obj_of_lookup hj, get_obj, hj, JVal.falsy]
      · -- non-empty list: first job must be an object
        rcases job with _ | b3 | q3 | s3 | zs | gs <;> simp at h
        rcases hr : specFigure gs "read" with _ | r0 <;> simp [hr] at h
        rcases hw : specFigure gs "write" with _ | w0 <;> simp [hw] at h
        subst h
        obtain ⟨rstats, hrg, hri⟩ := figure_eval gs "read" r0 hr
        obtain ⟨wstats, hwg, hwi⟩ := figure_eval gs "write" w0 hw
        simp [get_iops_from_results, falsy_obj_of_lookup hj, get_obj, hj,
          falsy_arr_cons, index0_cons, hrg, hri, hwg, hwi, pyAdd]

/-- A safe figure is a defined, non-negative spec-side figure. -/
lemma iopsFieldSafe_figure (gs : List (String × JVal)) (k : String)
    (h : iopsFieldSafe gs k = true) :
    ∃ r, specFigure gs k = some r ∧ 0 ≤ r := by
  rcases hk : jlookup gs k with _ | (_ | b | q0 | s | xs | hs) <;>
    simp [iopsFieldSafe, hk] at h
  · exact ⟨0, by simp [specFigure, hk], le_refl 0⟩
  · rcases hi : jlookup hs "iops" with _ | (_ | b2 | q2 | s2 | xs2 | hs2) <;>
      simp [hi] at h
    · exact ⟨0, by simp [specFigure, hk, hi], le_refl 0⟩
    · exact ⟨q2, by simp [specFigure, hk, hi], h⟩

/-- On every shape-checked result the extractor returns a non-negative
number without raising. -/
lemma get_iops_safe (res : Option JVal) (h : extractSafe res = true) :
    ∃ q : ℚ, 0 ≤ q ∧ get_iops_from_results res = .ok (.num q) := by
  rcases res with _ | doc
  · exact ⟨0, le_refl 0, rfl⟩
  · by_cases hf : doc.falsy
    · refine ⟨0, le_refl 0, ?_⟩
      simp [get_iops_from_results, hf]
    · rcases doc with _ | b | q0 | s | xs | fs <;>
        simp [extractSafe, hf] at h
      rcases hj : jlookup fs "jobs" with _ | jobs
      · refine ⟨0, le_refl 0, ?_⟩
        simp [get_iops_from_results, hf, get_obj, hj, JVal.falsy]
      · rw [hj] at h
        by_cases hjf : jobs.falsy
        · refine ⟨0, le_refl 0, ?_⟩
          simp [get_iops_from_results, hf, get_obj, hj, hjf]
        · simp [hjf] at h
          rcases jobs with _ | b2 | q2 | s2 | ys | gs2 <;> try simp at h
          rcases ys with _ | ⟨job, rest⟩
          · simp [JVal.falsy] at hjf
          · rcases job with _ | b3 | q3 | s3 | zs | gs <;> try simp at h
            obtain ⟨hr, hw⟩ := h
            obtain ⟨r0, hr1, hr2⟩ := iopsFieldSafe_figure gs "read" hr
            obtain ⟨w0, hw1, hw2⟩ := iopsFieldSafe_figure gs "write" hw
            obtain ⟨rstats, hrg, hri⟩ := figure_eval gs "read" r0 hr1
            obtain ⟨wstats, hwg, hwi⟩ := figure_eval gs "write" w0 hw1
            refine ⟨r0 + w0, add_nonneg hr2 hw2, ?_⟩
            simp [get_iops_from_results, hf, get_obj, hj, falsy_arr_cons,
              index0_cons, hrg, hri, hwg, hwi, pyAdd]

/-! ### Claims C3 and C4: the Metric Extractor -/

/-- C3 (counterexample): the Metric Extractor is NOT exception-free on
every malformed document — on a document whose first job's `read` field
is present but not an object (here the number 1) the chained
`job.get('read', {}).get('iops', 0)` raises `AttributeError`. -/
theorem c3_counterexample :
    get_iops_from_results
      (some (.obj [("jobs", .arr [.obj [("read", .num 1)]])])) =
      .error "AttributeError" := rfl

/-- C3 (amended): for every `Failure` result and every structured
document that is empty, missing the `jobs` key, or whose first job's
read/write fields — when present — are objects with numeric non-negative
`iops` fields (`extractSafe`), the Metric Extractor returns a
non-negative number and does not raise. -/
theorem c3_extract_nonneg_no_raise (res : Option JVal)
    (h : extractSafe res = true) :
    ∃ q : ℚ, 0 ≤ q ∧ get_iops_from_results res = .ok (.num q) :=
  get_iops_safe res h

/-- C3 witness: a concrete well-shaped document. -/
theorem c3_extract_nonneg_no_raise_witness :
    extractSafe (some (.obj [("jobs",
        .arr [.obj [("write", .obj [("iops", .num 5)])]])])) = true ∧
    ∃ q : ℚ, 0 ≤ q ∧
      get_iops_from_results (some (.obj [("jobs",
        .arr [.obj [("write", .obj [("iops", .num 5)])]])])) = .ok (.num q) :=
  ⟨rfl, c3_extract_nonneg_no_raise _ rfl⟩

/-- C4: the Metric Extractor returns 0 on a `Failure` result, and on a
`Success` result it returns the sum of the first job's read and write
operations-per-second figures, each defaulting to 0 when its field is
absent (`specExtract` is that description, returning `none` where it
does not determine a value; an empty jobs list falls under its
0-returning cases). -/
theorem c4_extract_functional (res : Option JVal) (q : ℚ)
    (h : specExtract res = some q) :
    get_iops_from_results res = .ok (.num q) :=
  get_iops_spec res q h

/-- C4 witness: the description applies to a `Failure` (0), to a
document with an empty jobs list (0), and to a concrete success
document (read absent, write 5). -/
theorem c4_extract_functional_witness :
    get_iops_from_results none = .ok (.num 0) ∧
    get_iops_from_results (some (.obj [("jobs", .arr [])])) = .ok (.num 0) ∧
    get_iops_from_results (some (.obj [("jobs",
      .arr [.obj [("write", .obj [("iops", .num 5)])]])])) = .ok (.num 5) :=
  ⟨c4_extract_functional none 0 rfl,
   c4_extract_functional _ 0 (by simp [specExtract, jlookup]),
   c4_extract_functional _ 5 (by simp [specExtract, specFigure, jlookup])⟩

/-! ### Sweep Controller lemmas -/

/-- The best-state fold: the `(best_iops, best_params)` state after
processing a list of (config, metric) pairs. -/
def bestFold (init : ℚ × Option (RunConfig × ℚ)) (l : List (RunConfig × ℚ)) :
    ℚ × Option (RunConfig × ℚ) :=
  l.foldl (fun s p => update_best s.1 s.2 p.1 p.2) init

/-- The (config, metric) pairs a combination list contributes. -/
def pairsOf (adapter : RunConfig → Except String (Option JVal × Option String))
    (l : List RunConfig) : List (RunConfig × ℚ) :=
  l.map fun c => (c, mval adapter c)

/-- The metric recorded in a row, read back as a number. -/
def rowMetric (r : ResultRow) : ℚ :=
  match r.iops with
  | .num q => q
  | _ => 0

/-- The running maximum of a metric list, with the tracker's 0 start. -/
def maxMetric (l : List ℚ) : ℚ := l.foldl max 0

lemma update_best_fst (bi : ℚ) (bp : Option (RunConfig × ℚ)) (cfg : RunConfig)
    (q : ℚ) : (update_best bi bp cfg q).1 = max bi q := by
  unfold update_best
  rcases le_or_lt q bi with h | h
  · rw [if_neg (not_lt.mpr h), max_eq_left h]
  · rw [if_pos h, max_eq_right (le_of_lt h)]

lemma foldl_max_init_le (a : ℚ) (l : List ℚ) : a ≤ l.foldl max a := by
  induction l generalizing a with
  | nil => exact le_refl a
  | cons x xs ih => exact le_trans (le_max_left a x) (ih (max a x))

lemma le_foldl_max_of_mem {x : ℚ} {l : List ℚ} (h : x ∈ l) (a : ℚ) :
    x ≤ l.foldl max a := by
  induction l generalizing a with
  | nil => cases h
  | cons y ys ih =>
    rcases List.mem_cons.mp h with rfl | hm
    · exact le_trans (le_max_right a x) (foldl_max_init_le (max a x) ys)
    · exact ih hm (max a y)

lemma maxMetric_nonneg (l : List ℚ) : 0 ≤ maxMetric l := foldl_max_init_le 0 l

lemma maxMetric_append (l : List ℚ) (q : ℚ) :
    maxMetric (l ++ [q]) = max (maxMetric l) q := by
  simp [maxMetric, List.foldl_append]

/-- Under per-combination success, `sweepLoop` returns the explicit row
list and the best-state fold. -/
lemma sweepLoop_eq (adapter : RunConfig → Except String (Option JVal × Option String))
    (ts : Nat → String) (l : List RunConfig) (idx : Nat) (bi : ℚ)
    (bp : Option (RunConfig × ℚ)) (H : ∀ cfg ∈ l, RunOk adapter cfg) :
    sweepLoop adapter ts l idx bi bp =
      .ok (rowsFor adapter ts idx l, bestFold (bi, bp) (pairsOf adapter l)) := by
  induction l generalizing idx bi bp with
  | nil => rfl
  | cons cfg rest ih =>
    obtain ⟨res, path, q, h1, h2⟩ := H cfg (List.mem_cons_self cfg rest)
    have hm : mval adapter cfg = q := by simp [mval, h1, h2]
    have ih' := ih (idx + 1) (update_best bi bp cfg q).1 (update_best bi bp cfg q).2
      (fun c hc => H c (List.mem_cons_of_mem _ hc))
    simp [sweepLoop, h1, h2, rowsFor, pairsOf, bestFold, hm, ih',
      List.foldl_cons]

lemma rowsFor_map_config (adapter : RunConfig → Except String (Option JVal × Option String))
    (ts : Nat → String) (idx : Nat) (l : List RunConfig) :
    (rowsFor adapter ts idx l).map ResultRow.config = l := by
  induction l generalizing idx with
  | nil => rfl
  | cons cfg rest ih => simp [rowsFor, ih]

lemma mem_rowsFor {adapter : RunConfig → Except String (Option JVal × Option String)}
    {ts : Nat → String} {idx : Nat} {l : List RunConfig} {r : ResultRow}
    (h : r ∈ rowsFor adapter ts idx l) :
    r.config ∈ l ∧ r.iops = .num (mval adapter r.config) := by
  induction l generalizing idx with
  | nil => cases h
  | cons cfg rest ih =>
    rcases List.mem_cons.mp h with rfl | hm
    · exact ⟨List.mem_cons_self _ _, rfl⟩
    · obtain ⟨h1, h2⟩ := ih hm
      exact ⟨List.mem_cons_of_mem _ h1, h2⟩

lemma rowsFor_map_metric (adapter : RunConfig → Except String (Option JVal × Option String))
    (ts : Nat → String) (idx : Nat) (l : List RunConfig) :
    (rowsFor adapter ts idx l).map rowMetric = l.map (mval adapter) := by
  induction l generalizing idx with
  | nil => rfl
  | cons cfg rest ih => simp [rowsFor, rowMetric, ih]

lemma rowsFor_length (adapter : RunConfig → Except String (Option JVal × Option String))
    (ts : Nat → String) (idx : Nat) (l : List RunConfig) :
    (rowsFor adapter ts idx l).length = l.length := by
  induction l generalizing idx with
  | nil => rfl
  | cons cfg rest ih => simp [rowsFor, ih]

/-- The tracker state after a full pass from the initial `(0, {})`:
the metric is the running maximum, the sentinel survives exactly when no
metric is positive, and a positive best points at the earliest row
achieving it. -/
lemma bestFold_spec (l : List (RunConfig × ℚ)) :
    (bestFold (0, none) l).1 = maxMetric (l.map Prod.snd) ∧
    ((∀ p ∈ l, p.2 ≤ 0) → bestFold (0, none) l = (0, none)) ∧
    (0 < (bestFold (0, none) l).1 →
      ∃ i, ∃ hi : i < l.length,
        (bestFold (0, none) l).2 = some ((l.get ⟨i, hi⟩).1, (bestFold (0, none) l).1) ∧
        (l.get ⟨i, hi⟩).2 = (bestFold (0, none) l).1 ∧
        ∀ j, (hj : j < i) →
          (l.get ⟨j, Nat.lt_trans hj hi⟩).2 < (bestFold (0, none) l).1) := by
  induction l using List.reverseRecOn with
  | nil =>
    refine ⟨rfl, fun _ => rfl, fun h => absurd h (by norm_num [bestFold, maxMetric])⟩
  | append_singleton l p ih =>
    obtain ⟨ih1, ih2, ih3⟩ := ih
    have hstep : bestFold (0, none) (l ++ [p]) =
        update_best (bestFold (0, none) l).1 (bestFold (0, none) l).2 p.1 p.2 := by
      simp [bestFold, List.foldl_append]
    have hmax : maxMetric ((l ++ [p]).map Prod.snd) =
        max (maxMetric (l.map Prod.snd)) p.2 := by
      rw [List.map_append]
      exact maxMetric_append (l.map Prod.snd) p.2
    constructor
    · rw [hstep, update_best_fst, ih1, hmax]
    constructor
    · intro hall
      have h1 : ∀ q ∈ l, q.2 ≤ 0 := fun q hq => hall q (List.mem_append_left _ hq)
      have h2 : p.2 ≤ 0 := hall p (List.mem_append_right _ (List.mem_singleton.mpr rfl))
      rw [hstep, ih2 h1]
      simp only [update_best]
      rw [if_neg (not_lt.mpr h2)]
    · intro hpos
      rw [hstep] at hpos ⊢
      by_cases hlt : (bestFold (0, none) l).1 < p.2
      · -- the new pair strictly improves: it becomes the best, at index l.length
        refine ⟨l.length, by simp, ?_, ?_, ?_⟩
        · simp [update_best, hlt, List.get_append_right, List.length_append]
        · simp [update_best, hlt, List.get_append_right, List.length_append]
        · intro j hj
          have hj' : j < l.length := hj
          have hmem : (l.get ⟨j, hj'⟩).2 ∈ l.map Prod.snd := by
            exact List.mem_map_of_mem Prod.snd (l.get_mem j hj')
          have hle : (l.get ⟨j, hj'⟩).2 ≤ (bestFold (0, none) l).1 := by
            rw [ih1]
            exact le_foldl_max_of_mem hmem 0
          have : ((l ++ [p]).get ⟨j, Nat.lt_trans hj (by simp)⟩) = l.get ⟨j, hj'⟩ := by
            rw [List.get_append j hj']
          rw [this]
          calc (l.get ⟨j, hj'⟩).2 ≤ (bestFold (0, none) l).1 := hle
            _ < p.2 := hlt
            _ = (update_best (bestFold (0, none) l).1 (bestFold (0, none) l).2 p.1 p.2).1 := by
                rw [update_best_fst, max_eq_right (le_of_lt hlt)]
      · -- no improvement: the old best survives
        have hsame : update_best (bestFold (0, none) l).1 (bestFold (0, none) l).2 p.1 p.2 =
            bestFold (0, none) l := by
          simp only [update_best]
          rw [if_neg hlt]
        rw [hsame] at hpos ⊢
        obtain ⟨i, hi, hb1, hb2, hb3⟩ := ih3 hpos
        refine ⟨i, Nat.lt_trans hi (by simp), ?_, ?_, ?_⟩
        · rw [List.get_append i hi]
          exact hb1
        · rw [List.get_append i hi]
          exact hb2
        · intro j hj
          rw [List.get_append j (Nat.lt_trans hj hi)]
          exact hb3 j hj

/-! ### Claims C1, C5, C10: controller and tracker invariants -/

/-- C1: one ResultRow is appended per RunConfig processed, in
enumeration order, whether or not the run succeeded; a failed run
(`run_fio_test` returned `(None, None)`) still yields a row, and that
row's metric is 0. -/
theorem c1_one_row_per_config (names : RunConfig → String)
    (env : RunConfig → FioEnv) (ts : Nat → String) (p : TestParams)
    (H : ∀ cfg ∈ combosOf p, RunOk (adapterOf names env) cfg) :
    ∃ rows best, run_parameter_test names env ts p = .ok (rows, best) ∧
      rows.map ResultRow.config = combosOf p ∧
      rows.length = (combosOf p).length ∧
      ∀ r ∈ rows, ∀ path, adapterOf names env r.config = .ok (none, path) →
        r.iops = .num 0 := by
  refine ⟨rowsFor (adapterOf names env) ts 1 (combosOf p),
    (bestFold (0, none) (pairsOf (adapterOf names env) (combosOf p))).2, ?_, ?_, ?_, ?_⟩
  · unfold run_parameter_test
    rw [sweepLoop_eq _ _ _ _ _ _ H]
  · exact rowsFor_map_config _ _ _ _
  · exact rowsFor_length _ _ _ _
  · intro r hr path hfail
    obtain ⟨_, h2⟩ := mem_rowsFor hr
    have : mval (adapterOf names env) r.config = 0 := by
      simp [mval, hfail, get_iops_from_results]
    rw [h2, this]

/-- C10: when no processed run yields a positive metric (including a
zero-length sweep), `run_parameter_test` returns the empty sentinel
`best_params` — no config fields, no `iops` key — and `main`'s read of
`best_params['iops']` raises `KeyError`. -/
theorem c10_sentinel_when_no_positive (names : RunConfig → String)
    (env : RunConfig → FioEnv) (ts : Nat → String) (p : TestParams)
    (H : ∀ cfg ∈ combosOf p, RunOk (adapterOf names env) cfg)
    (Hz : ∀ cfg ∈ combosOf p, mval (adapterOf names env) cfg ≤ 0) :
    ∃ rows, run_parameter_test names env ts p = .ok (rows, none) ∧
      best_params_iops none = .error "KeyError" := by
  have hall : ∀ q ∈ pairsOf (adapterOf names env) (combosOf p), q.2 ≤ 0 := by
    intro q hq
    obtain ⟨c, hc, rfl⟩ := List.mem_map.mp hq
    exact Hz c hc
  obtain ⟨_, h2, _⟩ := bestFold_spec (pairsOf (adapterOf names env) (combosOf p))
  refine ⟨rowsFor (adapterOf names env) ts 1 (combosOf p), ?_, rfl⟩
  unfold run_parameter_test
  rw [sweepLoop_eq _ _ _ _ _ _ H, h2 hall]

/-- C2 (counterexample): on metrics [100, 450, 450, 200] the tracker's
final selection is the SECOND processed config (the first of the tied
450s), not the third as the claim states. -/
theorem c2_counterexample :
    (bestFold (0, none)
        [(⟨"randread", "4k", 1, 1, "libaio"⟩, 100),
         (⟨"randread", "4k", 2, 1, "libaio"⟩, 450),
         (⟨"randread", "4k", 3, 1, "libaio"⟩, 450),
         (⟨"randread", "4k", 4, 1, "libaio"⟩, 200)]).2 =
      some (⟨"randread", "4k", 2, 1, "libaio"⟩, 450) ∧
    (⟨"randread", "4k", 2, 1, "libaio"⟩ : RunConfig) ≠
      ⟨"randread", "4k", 3, 1, "libaio"⟩ := by
  constructor
  · norm_num [bestFold, update_best, List.foldl]
  · decide

/-- C2 (amended): the tracker replaces the selection iff the new metric
is strictly greater, never on equality; on metrics [100, 450, 450, 200]
the final selection has metric 450 and is the second processed config
(the first of the tied 450s). -/
theorem c2_tracker_strict_update (bi : ℚ) (bp : Option (RunConfig × ℚ))
    (cfg : RunConfig) (q : ℚ) :
    (bi < q → update_best bi bp cfg q = (q, some (cfg, q))) ∧
    (¬ bi < q → update_best bi bp cfg q = (bi, bp)) ∧
    bestFold (0, none)
        [(⟨"randread", "4k", 1, 1, "libaio"⟩, 100),
         (⟨"randread", "4k", 2, 1, "libaio"⟩, 450),
         (⟨"randread", "4k", 3, 1, "libaio"⟩, 450),
         (⟨"randread", "4k", 4, 1, "libaio"⟩, 200)] =
      (450, some (⟨"randread", "4k", 2, 1, "libaio"⟩, 450)) := by
  refine ⟨fun h => by simp [update_best, h], fun h => by simp [update_best, h], ?_⟩
  norm_num [bestFold, update_best, List.foldl]

/-- C2 witness: the strict-update clauses at concrete inputs. -/
theorem c2_tracker_strict_update_witness :
    update_best 100 (some (⟨"r", "4k", 1, 1, "libaio"⟩, 100))
        ⟨"w", "8k", 2, 2, "sync"⟩ 450 =
      (450, some (⟨"w", "8k", 2, 2, "sync"⟩, 450)) ∧
    update_best 450 (some (⟨"r", "4k", 1, 1, "libaio"⟩, 450))
        ⟨"w", "8k", 2, 2, "sync"⟩ 450 =
      (450, some (⟨"r", "4k", 1, 1, "libaio"⟩, 450)) := by
  constructor
  · exact (c2_tracker_strict_update 100 _ _ 450).1 (by norm_num)
  · exact (c2_tracker_strict_update 450 _ _ 450).2.1 (by norm_num)

lemma pairsOf_map_snd (a : RunConfig → Except String (Option JVal × Option String))
    (l : List RunConfig) : (pairsOf a l).map Prod.snd = l.map (mval a) := by
  simp [pairsOf]

lemma rowsFor_pairs (a : RunConfig → Except String (Option JVal × Option String))
    (ts : Nat → String) (idx : Nat) (l : List RunConfig) :
    (rowsFor a ts idx l).map (fun r => (r.config, rowMetric r)) = pairsOf a l := by
  induction l generalizing idx with
  | nil => rfl
  | cons cfg rest ih => simp [rowsFor, pairsOf, rowMetric, ih (idx + 1), pairsOf] at ih ⊢; exact ih _

lemma pairsOf_getElem_of_row {a : RunConfig → Except String (Option JVal × Option String)}
    {ts : Nat → String} {idx : Nat} {l : List RunConfig} {j : Nat} {r : ResultRow}
    (hr : (rowsFor a ts idx l)[j]? = some r) :
    (pairsOf a l)[j]? = some (r.config, rowMetric r) := by
  rw [← rowsFor_pairs a ts idx l, List.getElem?_map, hr]
  rfl

/-- C5 (amended): at every point during a sweep — after the first N
combinations have been processed — the tracked `best_iops` equals the
maximum metric among the N written rows (0 when N = 0), and when that
maximum is positive, `best_params` holds the config of the
earliest-written row achieving it; when no row has a positive metric,
`best_params` remains the empty sentinel rather than naming any row. -/
theorem c5_best_selection_invariant (names : RunConfig → String)
    (env : RunConfig → FioEnv) (ts : Nat → String) (p : TestParams) (N : Nat)
    (H : ∀ cfg ∈ combosOf p, RunOk (adapterOf names env) cfg) :
    ∃ rows fbi fbp,
      sweepLoop (adapterOf names env) ts ((combosOf p).take N) 1 0 none =
        .ok (rows, fbi, fbp) ∧
      fbi = maxMetric (rows.map rowMetric) ∧
      ((∀ r ∈ rows, rowMetric r ≤ 0) → fbp = none) ∧
      (0 < fbi → ∃ i, i < rows.length ∧
        (∃ r, rows[i]? = some r ∧ fbp = some (r.config, fbi) ∧ rowMetric r = fbi) ∧
        ∀ j, j < i → ∀ r, rows[j]? = some r → rowMetric r < fbi) := by
  have Hpre : ∀ cfg ∈ (combosOf p).take N, RunOk (adapterOf names env) cfg :=
    fun c hc => H c (List.take_subset N (combosOf p) hc)
  obtain ⟨s1, s2, s3⟩ := bestFold_spec (pairsOf (adapterOf names env) ((combosOf p).take N))
  refine ⟨rowsFor (adapterOf names env) ts 1 ((combosOf p).take N),
    (bestFold (0, none) (pairsOf (adapterOf names env) ((combosOf p).take N))).1,
    (bestFold (0, none) (pairsOf (adapterOf names env) ((combosOf p).take N))).2,
    sweepLoop_eq _ _ _ _ _ _ Hpre, ?_, ?_, ?_⟩
  · rw [s1, pairsOf_map_snd, rowsFor_map_metric]
  · intro hz
    have hall : ∀ q ∈ pairsOf (adapterOf names env) ((combosOf p).take N), q.2 ≤ 0 := by
      intro q hq
      obtain ⟨c, hc, rfl⟩ := List.mem_map.mp hq
      have hmem : mval (adapterOf names env) c ∈
          (rowsFor (adapterOf names env) ts 1 ((combosOf p).take N)).map rowMetric := by
        rw [rowsFor_map_metric]
        exact List.mem_map_of_mem _ hc
      obtain ⟨r, hr1, hr2⟩ := List.mem_map.mp hmem
      calc mval (adapterOf names env) c = rowMetric r := hr2.symm
        _ ≤ 0 := hz r hr1
    rw [s2 hall]
  · intro hpos
    obtain ⟨i, hi, hb1, hb2, hb3⟩ := s3 hpos
    have hlen : (pairsOf (adapterOf names env) ((combosOf p).take N)).length =
        (rowsFor (adapterOf names env) ts 1 ((combosOf p).take N)).length := by
      simp [pairsOf, rowsFor_length]
    have hri : i < (rowsFor (adapterOf names env) ts 1 ((combosOf p).take N)).length :=
      hlen ▸ hi
    have hpair := pairsOf_getElem_of_row (List.getElem?_eq_getElem hri)
    rw [List.getElem?_eq_getElem hi] at hpair
    have h2 := Option.some_inj.mp hpair
    refine ⟨i, hri, ?_, ?_⟩
    · refine ⟨(rowsFor (adapterOf names env) ts 1 ((combosOf p).take N)).get ⟨i, hri⟩,
        List.getElem?_eq_getElem hri, ?_, ?_⟩
      · have hc : ((pairsOf (adapterOf names env) ((combosOf p).take N)).get ⟨i, hi⟩).1 =
            ((rowsFor (adapterOf names env) ts 1 ((combosOf p).take N)).get ⟨i, hri⟩).config :=
          congrArg Prod.fst h2
        rw [hb1, hc]
      · have h4 : rowMetric ((rowsFor (adapterOf names env) ts 1 ((combosOf p).take N)).get ⟨i, hri⟩) =
            ((pairsOf (adapterOf names env) ((combosOf p).take N)).get ⟨i, hi⟩).2 :=
          (congrArg Prod.snd h2).symm
        exact h4.trans hb2
    · intro j hj r hr
      have hpj := pairsOf_getElem_of_row hr
      have hji : j < (pairsOf (adapterOf names env) ((combosOf p).take N)).length :=
        Nat.lt_trans hj hi
      rw [List.getElem?_eq_getElem hji] at hpj
      have h5 : ((pairsOf (adapterOf names env) ((combosOf p).take N)).get
          ⟨j, Nat.lt_trans hj hi⟩).2 = rowMetric r :=
        congrArg Prod.snd (Option.some_inj.mp hpj)
      have h6 := hb3 j hj
      rw [h5] at h6
      exact h6

/-! ### Concrete fixtures for witnesses and counterexamples -/

/-- An environment in which every benchmark run exits with status 1. -/
def envFail : RunConfig → FioEnv := fun _ => ⟨.exitCode 1, .error "unused"⟩

def namesCst : RunConfig → String := fun _ => "out.json"

def tsCst : Nat → String := fun _ => "2026-01-01 00:00:00"

/-- A sweep over a single combination. -/
def pSingle : TestParams :=
  ⟨some ["randread"], some ["4k"], some [32], some [4], some ["libaio"]⟩

lemma envFail_runOk (cfg : RunConfig) : RunOk (adapterOf namesCst envFail) cfg :=
  ⟨none, none, 0, rfl, rfl⟩

/-- C1 witness: a one-combination sweep whose only run fails. -/
theorem c1_one_row_per_config_witness :
    ∃ rows best, run_parameter_test namesCst envFail tsCst pSingle = .ok (rows, best) ∧
      rows.map ResultRow.config = combosOf pSingle ∧
      rows.length = (combosOf pSingle).length ∧
      ∀ r ∈ rows, ∀ path, adapterOf namesCst envFail r.config = .ok (none, path) →
        r.iops = .num 0 :=
  c1_one_row_per_config namesCst envFail tsCst pSingle fun cfg _ => envFail_runOk cfg

/-- C5 (counterexample to the claim as stated): in a one-combination
sweep whose run failed, one row with metric 0 has been written — so the
maximum metric is 0 and the earliest row achieving it is that row — yet
the returned selection is the empty sentinel, not that row's config. -/
theorem c5_counterexample :
    run_parameter_test namesCst envFail tsCst pSingle =
      .ok ([⟨⟨"randread", "4k", 32, 4, "libaio"⟩, .num 0, "2026-01-01 00:00:00"⟩], none) ∧
    (none : Option (RunConfig × ℚ)) ≠
      some (⟨"randread", "4k", 32, 4, "libaio"⟩, 0) :=
  ⟨rfl, by decide⟩

/-- C5 witness: the invariant at N = 1 on the failing one-run sweep. -/
theorem c5_best_selection_invariant_witness :
    ∃ rows fbi fbp,
      sweepLoop (adapterOf namesCst envFail) tsCst ((combosOf pSingle).take 1) 1 0 none =
        .ok (rows, fbi, fbp) ∧
      fbi = maxMetric (rows.map rowMetric) ∧
      ((∀ r ∈ rows, rowMetric r ≤ 0) → fbp = none) ∧
      (0 < fbi → ∃ i, i < rows.length ∧
        (∃ r, rows[i]? = some r ∧ fbp = some (r.config, fbi) ∧ rowMetric r = fbi) ∧
        ∀ j, j < i → ∀ r, rows[j]? = some r → rowMetric r < fbi) :=
  c5_best_selection_invariant namesCst envFail tsCst pSingle 1
    fun cfg _ => envFail_runOk cfg

/-- C10 witness: the all-failures sweep returns the empty sentinel. -/
theorem c10_sentinel_when_no_positive_witness :
    ∃ rows, run_parameter_test namesCst envFail tsCst pSingle = .ok (rows, none) ∧
      best_params_iops none = .error "KeyError" :=
  c10_sentinel_when_no_positive namesCst envFail tsCst pSingle
    (fun cfg _ => envFail_runOk cfg) (fun _ _ => le_of_eq rfl)

/-! ### Claim C7: empty dimension lists -/

/-- C7 (counterexample): a sweep whose `rw` dimension list is empty does
NOT fail at sweep start — it silently completes with zero runs, writing
no data rows and returning the empty sentinel selection. -/
theorem c7_counterexample :
    run_parameter_test namesCst envFail tsCst ⟨some [], none, none, none, none⟩ =
      .ok ([], none) := rfl

/-- C7 (amended): an empty dimension list yields a silent zero-length
sweep: the combination list is empty, no run executes, no data row is
written, and the empty sentinel selection is returned — no error is
reported to the caller. -/
theorem c7_empty_dimension_silent (names : RunConfig → String)
    (env : RunConfig → FioEnv) (ts : Nat → String) (p : TestParams)
    (h : p.rw = some [] ∨ p.bs = some [] ∨ p.iodepth = some [] ∨
      p.numjobs = some [] ∨ p.ioengine = some []) :
    run_parameter_test names env ts p = .ok ([], none) := by
  have hc : combosOf p = [] := by
    rcases h with h | h | h | h | h <;>
      simp [combosOf, product5, h, List.flatMap_eq_nil_iff]
  simp [run_parameter_test, hc, sweepLoop]

/-- C7 witness: the amended behaviour at a concrete empty dimension. -/
theorem c7_empty_dimension_silent_witness :
    run_parameter_test namesCst envFail tsCst ⟨none, some [], none, none, none⟩ =
      .ok ([], none) :=
  c7_empty_dimension_silent namesCst envFail tsCst _ (Or.inr (Or.inl rfl))

/-! ### Claim C8: the Run Adapter -/

/-- C8: `run_fio_test` returns the `Failure` value `(None, None)` — it
does not raise — whenever the external process exits non-zero, and it
returns a `Success` document only when the process exited 0 and the
output file was read and parsed, in which case the returned path is the
output file. -/
theorem c8_adapter_failure_contained (f : String) (env : FioEnv) :
    (∀ c, env.proc = .exitCode (c + 1) → run_fio_test f env = .ok (none, none)) ∧
    (∀ doc path, run_fio_test f env = .ok (some doc, path) →
      env.proc = .exitCode 0 ∧ env.readOutput = .ok doc ∧ path = some f) := by
  constructor
  · intro c h
    simp [run_fio_test, h]
  · intro doc path h
    unfold run_fio_test at h
    rcases hp : env.proc with c | m
    · rw [hp] at h
      rcases c with _ | c
      · rcases ho : env.readOutput with m2 | d
        · rw [ho] at h
          cases h
        · rw [ho] at h
          injection h with h1
          injection h1 with h2 h3
          injection h2 with h4
          exact ⟨rfl, by rw [h4], h3.symm⟩
      · simp at h
    · rw [hp] at h
      cases h

/-- C8 witness: a non-zero exit yields `(None, None)`; a clean run with
a parsed document satisfies the success characterization. -/
theorem c8_adapter_failure_contained_witness :
    run_fio_test "out.json" ⟨.exitCode 1, .error "boom"⟩ = .ok (none, none) ∧
    ((⟨.exitCode 0, .ok (.obj [])⟩ : FioEnv).proc = .exitCode 0 ∧
      (⟨.exitCode 0, .ok (.obj [])⟩ : FioEnv).readOutput = .ok (.obj []) ∧
      (some "out.json" : Option String) = some "out.json") :=
  ⟨(c8_adapter_failure_contained "out.json" ⟨.exitCode 1, .error "boom"⟩).1 0 rfl,
   (c8_adapter_failure_contained "out.json" ⟨.exitCode 0, .ok (.obj [])⟩).2
     (.obj []) (some "out.json") rfl⟩

/-! ### Claim C6: the Configuration Enumerator -/

lemma length_flatMap_const {α β : Type} (xs : List α) (f : α → List β) (k : Nat)
    (hk : ∀ a, (f a).length = k) : (xs.flatMap f).length = xs.length * k := by
  induction xs with
  | nil => simp
  | cons x l ih =>
    rw [List.flatMap_cons, List.length_append, hk x, ih, List.length_cons]
    ring

lemma getElem?_flatMap_const {α β : Type} (xs : List α) (f : α → List β) (k : Nat)
    (hk : ∀ a, (f a).length = k) (hkpos : 0 < k) (i : Nat) :
    (xs.flatMap f)[i]? = xs[i / k]?.bind fun a => (f a)[i % k]? := by
  induction xs generalizing i with
  | nil => simp
  | cons x l ih =>
    rw [List.flatMap_cons]
    by_cases h : i < k
    · rw [List.getElem?_append_left (by rw [hk x]; exact h),
        Nat.div_eq_of_lt h, Nat.mod_eq_of_lt h]
      simp
    · push_neg at h
      rw [List.getElem?_append_right (by rw [hk x]; exact h), hk x, ih (i - k),
        Nat.div_eq_sub_div hkpos h, Nat.mod_eq_sub_mod h]
      simp

/-- C6: for non-empty dimension lists the enumerator's length is the
product of the five list lengths; position i holds the combination whose
pattern index is `i` divided by the product of the four faster
dimensions (pattern varies slowest) and whose engine index is
`i % es.length` (engine varies fastest), with the standard mixed-radix
decomposition in between; and the enumeration is deterministic. -/
theorem c6_enumerator_product_order (rs bss : List String) (ds ns : List Int)
    (es : List String) (h1 : rs ≠ []) (h2 : bss ≠ []) (h3 : ds ≠ [])
    (h4 : ns ≠ []) (h5 : es ≠ []) :
    (product5 rs bss ds ns es).length =
      rs.length * (bss.length * (ds.length * (ns.length * es.length))) ∧
    (∀ i : Nat, (product5 rs bss ds ns es)[i]? =
      rs[i / (bss.length * (ds.length * (ns.length * es.length)))]?.bind fun rw =>
        bss[i / (ds.length * (ns.length * es.length)) % bss.length]?.bind fun bs =>
          ds[i / (ns.length * es.length) % ds.length]?.bind fun d =>
            ns[i / es.length % ns.length]?.bind fun n =>
              (es[i % es.length]?.map fun e => (⟨rw, bs, d, n, e⟩ : RunConfig))) ∧
    (∀ rs2 bss2 ds2 ns2 es2, rs = rs2 → bss = bss2 → ds = ds2 → ns = ns2 →
      es = es2 → product5 rs bss ds ns es = product5 rs2 bss2 ds2 ns2 es2) := by
  have hB : 0 < bss.length := List.length_pos.mpr h2
  have hD : 0 < ds.length := List.length_pos.mpr h3
  have hN : 0 < ns.length := List.length_pos.mpr h4
  have hE : 0 < es.length := List.length_pos.mpr h5
  have l4 : ∀ (rw bs : String) (d : Int),
      ((ns.flatMap fun n => es.map fun e => (⟨rw, bs, d, n, e⟩ : RunConfig))).length =
        ns.length * es.length :=
    fun rw bs d => length_flatMap_const ns _ es.length (fun n => by simp)
  have l3 : ∀ (rw bs : String),
      ((ds.flatMap fun d => ns.flatMap fun n =>
          es.map fun e => (⟨rw, bs, d, n, e⟩ : RunConfig))).length =
        ds.length * (ns.length * es.length) :=
    fun rw bs => length_flatMap_const ds _ _ (l4 rw bs)
  have l2 : ∀ rw : String,
      ((bss.flatMap fun bs => ds.flatMap fun d => ns.flatMap fun n =>
          es.map fun e => (⟨rw, bs, d, n, e⟩ : RunConfig))).length =
        bss.length * (ds.length * (ns.length * es.length)) :=
    fun rw => length_flatMap_const bss _ _ (l3 rw)
  refine ⟨length_flatMap_const rs _ _ l2, ?_, ?_⟩
  · intro i
    rw [show (product5 rs bss ds ns es)[i]? =
        (rs.flatMap fun rw => bss.flatMap fun bs => ds.flatMap fun d =>
          ns.flatMap fun n => es.map fun e => (⟨rw, bs, d, n, e⟩ : RunConfig))[i]? from rfl,
      getElem?_flatMap_const rs _ _ l2
        (Nat.mul_pos hB (Nat.mul_pos hD (Nat.mul_pos hN hE))) i]
    refine congrArg (Option.bind _) (funext fun rw => ?_)
    rw [getElem?_flatMap_const bss _ _ (l3 rw) (Nat.mul_pos hD (Nat.mul_pos hN hE)) _]
    rw [show bss.length * (ds.length * (ns.length * es.length)) =
        ds.length * (ns.length * es.length) * bss.length from by ring]
    rw [Nat.mod_mul_right_div_self,
      Nat.mod_mod_of_dvd i ⟨bss.length, by ring⟩]
    refine congrArg (Option.bind _) (funext fun bs => ?_)
    rw [getElem?_flatMap_const ds _ _ (l4 rw bs) (Nat.mul_pos hN hE) _]
    rw [show ds.length * (ns.length * es.length) =
        ns.length * es.length * ds.length from by ring]
    rw [Nat.mod_mul_right_div_self,
      Nat.mod_mod_of_dvd i ⟨ds.length, by ring⟩]
    refine congrArg (Option.bind _) (funext fun d => ?_)
    rw [getElem?_flatMap_const ns _ _ (fun n => by simp) hE _]
    rw [show ns.length * es.length = es.length * ns.length from by ring]
    rw [Nat.mod_mul_right_div_self,
      Nat.mod_mod_of_dvd i ⟨ns.length, by ring⟩]
    refine congrArg (Option.bind _) (funext fun n => ?_)
    rw [List.getElem?_map]
  · intro rs2 bss2 ds2 ns2 es2 e1 e2 e3 e4 e5
    rw [e1, e2, e3, e4, e5]

/-- C6 witness: the length formula on concrete dimension lists. -/
theorem c6_enumerator_product_order_witness :
    (product5 ["randread", "write"] ["4k"] [1, 2] [4] ["libaio", "sync"]).length =
      2 * (1 * (2 * (1 * 2))) :=
  (c6_enumerator_product_order ["randread", "write"] ["4k"] [1, 2] [4]
    ["libaio", "sync"] (List.cons_ne_nil _ _) (List.cons_ne_nil _ _)
    (List.cons_ne_nil _ _) (List.cons_ne_nil _ _) (List.cons_ne_nil _ _)).1


/-! ### Claim C9: the Result Store -/

/-- Split a character sequence at every occurrence of `c` (the reading
side of the delimited encoding; `csv.reader` on quote-free input). -/
def splitChar (c : Char) : List Char → List (List Char)
  | [] => [[]]
  | x :: xs =>
    let r := splitChar c xs
    if x = c then [] :: r
    else
      match r with
      | [] => [[x]]
      | y :: ys => (x :: y) :: ys

/-- Join fields with the delimiter `c` (the writing side: QUOTE_MINIMAL
leaves a field containing no special character unquoted). -/
def joinChar (c : Char) : List (List Char) → List Char
  | [] => []
  | [f] => f
  | f :: fs => f ++ c :: joinChar c fs

/-- The header written by `run_parameter_test` (test_iops.py line 78). -/
def headerFields : List (List Char) :=
  ["rw", "bs", "iodepth", "numjobs", "ioengine", "iops", "timestamp"].map String.toList

/-- One CSV data row as the `csv.DictWriter` receives it: the seven
values already rendered to text. -/
structure CsvRow where
  rw : List Char
  bs : List Char
  iodepth : List Char
  numjobs : List Char
  ioengine : List Char
  iops : List Char
  timestamp : List Char

def CsvRow.toFields (r : CsvRow) : List (List Char) :=
  [r.rw, r.bs, r.iodepth, r.numjobs, r.ioengine, r.iops, r.timestamp]

/-- A field the minimal-quoting encoder writes verbatim: free of the
delimiter, the quote character and both newline characters. -/
def csvClean (f : List Char) : Prop :=
  ',' ∉ f ∧ '\n' ∉ f ∧ '\r' ∉ f ∧ '"' ∉ f

/-- The store file after the header and the given rows have been
written: each row is comma-joined and terminated by CRLF
(`csv.writer`'s default line terminator). -/
def writeStore (rows : List (List (List Char))) : List Char :=
  ((headerFields :: rows).map fun r => joinChar ',' r ++ [ '\r', '\n' ]).flatten

/-- Universal-newline handling on one line: drop a trailing CR. -/
def stripCR (l : List Char) : List Char :=
  match l.getLast? with
  | some c => if c = '\r' then l.dropLast else l
  | none => l

/-- Re-reading the store (`visualize_results`, test_iops.py lines
173-177): split into lines, drop the empty fragment after the final
newline, and split every line at the delimiter. -/
def readStore (s : List Char) : List (List (List Char)) :=
  let lines := splitChar '\n' s
  let lines := if lines.getLast? = some [] then lines.dropLast else lines
  lines.map fun line => splitChar ',' (stripCR line)

/-- Decimal rendering of a natural number (`str` on a non-negative
integral metric). -/
def natToStr (n : Nat) : List Char :=
  if _ : n < 10 then [Char.ofNat (48 + n)]
  else natToStr (n / 10) ++ [Char.ofNat (48 + n % 10)]
termination_by n
decreasing_by
  have h10 : 10 ≤ n := Nat.le_of_not_lt (by assumption)
  exact Nat.div_lt_self (Nat.lt_of_lt_of_le (by norm_num) h10) (by norm_num)

/-- Decimal parsing (`float`/`int` on a digit string). -/
def parseNat (s : List Char) : Nat :=
  s.foldl (fun a c => a * 10 + (c.toNat - 48)) 0

lemma splitChar_no_delim {c : Char} {f : List Char} (h : c ∉ f) :
    splitChar c f = [f] := by
  induction f with
  | nil => rfl
  | cons x xs ih =>
    have hx : x ≠ c := fun e => h (e ▸ List.mem_cons_self x xs)
    have hxs : c ∉ xs := fun m => h (List.mem_cons_of_mem x m)
    simp only [splitChar, if_neg hx, ih hxs]

lemma splitChar_append_head {c : Char} {f : List Char} (s : List Char)
    (h : c ∉ f) : splitChar c (f ++ c :: s) = f :: splitChar c s := by
  induction f with
  | nil => simp [splitChar]
  | cons x xs ih =>
    have hx : x ≠ c := fun e => h (e ▸ List.mem_cons_self x xs)
    have hxs : c ∉ xs := fun m => h (List.mem_cons_of_mem x m)
    simp only [List.cons_append, splitChar, if_neg hx, List.append_eq, ih hxs]

lemma splitChar_join {c : Char} {fs : List (List Char)} (hne : fs ≠ [])
    (hf : ∀ f ∈ fs, c ∉ f) : splitChar c (joinChar c fs) = fs := by
  induction fs with
  | nil => cases hne rfl
  | cons f rest ih =>
    rcases rest with _ | ⟨g, rest2⟩
    · exact splitChar_no_delim (hf f (List.mem_cons_self f []))
    · have hjoin : joinChar c (f :: g :: rest2) = f ++ c :: joinChar c (g :: rest2) := rfl
      rw [hjoin, splitChar_append_head _ (hf f (List.mem_cons_self _ _)),
        ih (List.cons_ne_nil g rest2) (fun x hx => hf x (List.mem_cons_of_mem f hx))]

lemma not_mem_joinChar {c d : Char} (h : c ≠ d) {fs : List (List Char)}
    (hf : ∀ f ∈ fs, c ∉ f) : c ∉ joinChar d fs := by
  induction fs with
  | nil => simp [joinChar]
  | cons f rest ih =>
    rcases rest with _ | ⟨g, rest2⟩
    · exact hf f (List.mem_cons_self f [])
    · have hjoin : joinChar d (f :: g :: rest2) = f ++ d :: joinChar d (g :: rest2) := rfl
      rw [hjoin]
      intro hmem
      rcases List.mem_append.mp hmem with hm | hm
      · exact hf f (List.mem_cons_self _ _) hm
      · rcases List.mem_cons.mp hm with rfl | hm2
        · exact h rfl
        · exact ih (fun x hx => hf x (List.mem_cons_of_mem f hx)) hm2

lemma splitChar_lines {ls : List (List Char)} (h : ∀ l ∈ ls, '\n' ∉ l) :
    splitChar '\n' ((ls.map fun l => l ++ [ '\n' ]).flatten) = ls ++ [[]] := by
  induction ls with
  | nil => rfl
  | cons l rest ih =>
    have : ((l :: rest).map fun l => l ++ [ '\n' ]).flatten =
        l ++ '\n' :: ((rest.map fun l => l ++ [ '\n' ]).flatten) := by
      simp
    rw [this, splitChar_append_head _ (h l (List.mem_cons_self _ _)),
      ih (fun x hx => h x (List.mem_cons_of_mem l hx))]
    rfl

lemma stripCR_concat (l : List Char) : stripCR (l ++ [ '\r' ]) = l := by
  unfold stripCR
  rw [List.getLast?_concat]
  simp

lemma digitChar_toNat {n : Nat} (h : n < 10) : (Char.ofNat (48 + n)).toNat = 48 + n := by
  interval_cases n <;> decide

lemma mem_natToStr {n : Nat} {c : Char} (hc : c ∈ natToStr n) :
    48 ≤ c.toNat ∧ c.toNat ≤ 57 := by
  induction n using Nat.strong_induction_on with
  | _ n ih =>
    by_cases h : n < 10
    · rw [natToStr, dif_pos h] at hc
      rcases List.mem_singleton.mp hc with rfl
      rw [digitChar_toNat h]
      omega
    · rw [natToStr, dif_neg h] at hc
      rcases List.mem_append.mp hc with hm | hm
      · exact ih (n / 10) (Nat.div_lt_self (by omega) (by norm_num)) hm
      · rcases List.mem_singleton.mp hm with rfl
        have hlt : n % 10 < 10 := Nat.mod_lt n (by norm_num)
        rw [digitChar_toNat hlt]
        omega

lemma natToStr_csvClean (n : Nat) : csvClean (natToStr n) := by
  refine ⟨fun h => ?_, fun h => ?_, fun h => ?_, fun h => ?_⟩ <;>
    exact absurd (mem_natToStr h).1 (by decide)

lemma parseNat_go (n : Nat) : ∀ a : Nat,
    (natToStr n).foldl (fun a c => a * 10 + (c.toNat - 48)) a =
      a * 10 ^ (natToStr n).length + n := by
  induction n using Nat.strong_induction_on with
  | _ n ih =>
    intro a
    by_cases h : n < 10
    · rw [natToStr, dif_pos h]
      simp only [List.foldl, digitChar_toNat h, List.length_cons, List.length_nil,
        pow_one]
      omega
    · rw [natToStr, dif_neg h, List.foldl_append,
        ih (n / 10) (Nat.div_lt_self (by omega) (by norm_num)) a]
      have hlt : n % 10 < 10 := Nat.mod_lt n (by norm_num)
      simp only [List.foldl, digitChar_toNat hlt, List.length_append,
        List.length_cons, List.length_nil]
      rw [pow_succ, ← mul_assoc]
      generalize a * 10 ^ (natToStr (n / 10)).length = b
      omega

lemma parseNat_natToStr (n : Nat) : parseNat (natToStr n) = n := by
  have := parseNat_go n 0
  simpa [parseNat] using this

/-- Re-reading a store written with clean rows recovers the header and
every row verbatim. -/
lemma readStore_writeStore (rs : List (List (List Char)))
    (hne : ∀ r ∈ rs, r ≠ [])
    (hclean : ∀ r ∈ rs, ∀ f ∈ r, ',' ∉ f ∧ '\n' ∉ f ∧ '\r' ∉ f) :
    readStore (writeStore rs) = headerFields :: rs := by
  have hALLne : ∀ r ∈ headerFields :: rs, r ≠ [] := by
    intro r hr
    rcases List.mem_cons.mp hr with rfl | hm
    · decide
    · exact hne r hm
  have hALLclean : ∀ r ∈ headerFields :: rs, ∀ f ∈ r,
      ',' ∉ f ∧ '\n' ∉ f ∧ '\r' ∉ f := by
    intro r hr
    rcases List.mem_cons.mp hr with rfl | hm
    · decide
    · exact hclean r hm
  have hw : writeStore rs =
      ((((headerFields :: rs).map fun r => joinChar ',' r ++ [ '\r' ]).map
        fun l => l ++ [ '\n' ]).flatten) := by
    rw [writeStore]
    congr 1
    rw [List.map_map]
    refine List.map_congr_left fun r _ => ?_
    show joinChar ',' r ++ [ '\r', '\n' ] = (joinChar ',' r ++ [ '\r' ]) ++ [ '\n' ]
    rw [List.append_assoc]
    rfl
  have hnonl : ∀ l ∈ (headerFields :: rs).map fun r => joinChar ',' r ++ [ '\r' ],
      '\n' ∉ l := by
    intro l hl
    obtain ⟨r, hr, rfl⟩ := List.mem_map.mp hl
    intro hmem
    rcases List.mem_append.mp hmem with hm | hm
    · exact not_mem_joinChar (by decide) (fun f hf => ((hALLclean r hr) f hf).2.1) hm
    · simp at hm
  have hfin : List.map ((fun line => splitChar ',' (stripCR line)) ∘
      fun r => joinChar ',' r ++ [ '\r' ]) (headerFields :: rs) =
      List.map id (headerFields :: rs) :=
    List.map_congr_left fun r hr => by
      show splitChar ',' (stripCR (joinChar ',' r ++ [ '\r' ])) = r
      rw [stripCR_concat,
        splitChar_join (hALLne r hr) (fun f hf => ((hALLclean r hr) f hf).1)]
  rw [hw, readStore]
  simp only [splitChar_lines hnonl, List.getLast?_concat, List.dropLast_concat,
    if_true]
  rw [List.map_map, hfin, List.map_id]

/-- C9: for rows whose rendered fields contain no delimiter (nor quote
nor newline) characters, writing the store — header
`rw,bs,iodepth,numjobs,ioengine,iops,timestamp` first — and re-reading
it recovers every field string-equal; and the decimal rendering of a
natural-number metric is delimiter-free and parses back to an equal
number. -/
theorem c9_store_round_trip (rows : List CsvRow)
    (h : ∀ r ∈ rows, ∀ f ∈ CsvRow.toFields r, csvClean f) :
    readStore (writeStore (rows.map CsvRow.toFields)) =
      headerFields :: rows.map CsvRow.toFields ∧
    joinChar ',' headerFields =
      ("rw,bs,iodepth,numjobs,ioengine,iops,timestamp").toList ∧
    ∀ n : Nat, csvClean (natToStr n) ∧ parseNat (natToStr n) = n := by
  refine ⟨?_, rfl, fun n => ⟨natToStr_csvClean n, parseNat_natToStr n⟩⟩
  apply readStore_writeStore
  · intro r hr
    obtain ⟨row, _, rfl⟩ := List.mem_map.mp hr
    simp [CsvRow.toFields]
  · intro r hr f hf
    obtain ⟨row, hrow, rfl⟩ := List.mem_map.mp hr
    obtain ⟨hc1, hc2, hc3, _⟩ := h row hrow f hf
    exact ⟨hc1, hc2, hc3⟩

instance decCsvClean (f : List Char) : Decidable (csvClean f) := by
  unfold csvClean
  infer_instance

/-- A concrete clean row for the C9 witness. -/
def rowCx : CsvRow :=
  ⟨"randread".toList, "4k".toList, "32".toList, "4".toList, "libaio".toList,
   "54321.5".toList, "2026-01-01 00:00:00".toList⟩

/-- C9 witness: the round trip on one concrete row. -/
theorem c9_store_round_trip_witness :
    readStore (writeStore ([rowCx].map CsvRow.toFields)) =
      headerFields :: [rowCx].map CsvRow.toFields ∧
    joinChar ',' headerFields =
      ("rw,bs,iodepth,numjobs,ioengine,iops,timestamp").toList ∧
    ∀ n : Nat, csvClean (natToStr n) ∧ parseNat (natToStr n) = n :=
  c9_store_round_trip [rowCx] (by decide)
